import Mathlib

/-!
# Verification of the nautilus-futu protocol core

Shallow embedding of the protocol runtime of the `futu` crate
(`crates/futu/src`): the framing codec (`protocol/codec.rs`,
`protocol/header.rs`), the AES-ECB/PKCS#7 cipher layer
(`protocol/encryption.rs`), the connection receive path and serial counter
(`client/connection.rs`), the dispatcher (`client/dispatcher.rs`) and the
keepalive driver (`client/keepalive.rs`).

Bytes are modelled as `Nat` (with `% 256` / `% 2^32` where machine-width
truncation matters); byte buffers as `List Nat`; fallible operations return
`Except`.  External library primitives (the SHA-1 hash of the `sha1` crate
and the AES-128 block maps of the `aes` crate) are parameters of the
embedding, constrained only by the functional properties their Rust types
guarantee (a SHA-1 digest has 20 bytes; an AES block map sends 16-byte
blocks to 16-byte blocks and decryption inverts encryption).
-/

set_option autoImplicit false

namespace NautilusFutu

/-! ## Byte-level helpers -/

/-- `2^32`, the modulus of Rust's `u32` arithmetic. -/
def UINT32_MOD : Nat := 4294967296

/-- Little-endian serialization of a `u32` (`put_u32_le`). -/
def toLE32 (v : Nat) : List Nat :=
  [v % 256, v / 256 % 256, v / 65536 % 256, v / 16777216 % 256]

/-- Little-endian deserialization of a `u32` (`u32::from_le_bytes`). -/
def fromLE32 (l : List Nat) : Nat :=
  l.getD 0 0 + 256 * l.getD 1 0 + 65536 * l.getD 2 0 + 16777216 * l.getD 3 0

/-! ## Data model: `FutuMessage` (codec.rs) and `PacketHeader` (header.rs) -/

/-- A framed message consisting of header + body (`FutuMessage` in codec.rs). -/
structure FutuMessage where
  proto_id : Nat
  serial_no : Nat
  body : List Nat
deriving DecidableEq, Repr

/-- `HEADER_SIZE` in header.rs. -/
def HEADER_SIZE : Nat := 44

/-- `HEADER_MAGIC = b"FT"` in header.rs, as byte values. -/
def HEADER_MAGIC : List Nat := [70, 84]

/-- `MAX_BODY_SIZE` (100 MB) in codec.rs. -/
def MAX_BODY_SIZE : Nat := 100000000

/-- `PacketHeader` in header.rs. -/
structure PacketHeader where
  proto_id : Nat
  proto_fmt_type : Nat
  proto_ver : Nat
  serial_no : Nat
  body_len : Nat
  body_sha1 : List Nat
deriving DecidableEq, Repr

/-- `HeaderError` in header.rs. -/
inductive HeaderError where
  | insufficientData
  | invalidMagic
deriving DecidableEq, Repr

/-- `CodecError` in codec.rs (the `Io` variant, which merely wraps a socket
error and is never produced by `decode`/`encode` themselves, is omitted). -/
inductive CodecError where
  | header (e : HeaderError)
  | bodyTooLarge (len : Nat)
  | checksumMismatch (proto_id serial_no : Nat)
deriving DecidableEq, Repr

/-- `PacketHeader::new` in header.rs: `body_len` is `body.len() as u32`
(hence the `% 2^32` truncation) and `body_sha1` is the SHA-1 digest of the
body; the hash is a parameter of the embedding. -/
def PacketHeader.new (hash : List Nat → List Nat) (proto_id serial_no : Nat)
    (body : List Nat) : PacketHeader :=
  { proto_id := proto_id
    proto_fmt_type := 0
    proto_ver := 0
    serial_no := serial_no
    body_len := body.length % UINT32_MOD
    body_sha1 := hash body }

/-- `PacketHeader::encode` in header.rs: magic, proto_id (LE), fmt type,
version, serial_no (LE), body_len (LE), sha1, 8 reserved zero bytes. -/
def PacketHeader.encodeBytes (h : PacketHeader) : List Nat :=
  HEADER_MAGIC ++ toLE32 h.proto_id ++ [h.proto_fmt_type, h.proto_ver] ++
    toLE32 h.serial_no ++ toLE32 h.body_len ++ h.body_sha1 ++ List.replicate 8 0

/-- `PacketHeader::decode` in header.rs: fails with `InsufficientData` when
fewer than 44 bytes are buffered (checked *before* the magic), with
`InvalidMagic` when the first two bytes are not `"FT"`; otherwise reads the
fields and advances the buffer by `HEADER_SIZE` (the consumed buffer is
returned as the second component). -/
def PacketHeader.decodeBytes (buf : List Nat) :
    Except HeaderError (PacketHeader × List Nat) :=
  if buf.length < HEADER_SIZE then .error .insufficientData
  else if buf.take 2 ≠ HEADER_MAGIC then .error .invalidMagic
  else .ok
    ({ proto_id := fromLE32 ((buf.drop 2).take 4)
       proto_fmt_type := buf.getD 6 0
       proto_ver := buf.getD 7 0
       serial_no := fromLE32 ((buf.drop 8).take 4)
       body_len := fromLE32 ((buf.drop 12).take 4)
       body_sha1 := (buf.drop 16).take 20 }, buf.drop HEADER_SIZE)

/-- `PacketHeader::verify_body` in header.rs. -/
def PacketHeader.verify_body (hash : List Nat → List Nat) (h : PacketHeader)
    (body : List Nat) : Bool :=
  hash body = h.body_sha1

/-! ## Framing codec (codec.rs) -/

/-- `<FutuCodec as Encoder>::encode` in codec.rs: header followed by the raw
body bytes, appended to the output buffer. -/
def FutuCodec.encodeMsg (hash : List Nat → List Nat) (item : FutuMessage) :
    List Nat :=
  (PacketHeader.new hash item.proto_id item.serial_no item.body).encodeBytes ++ item.body

/-- `<FutuCodec as Decoder>::decode` in codec.rs.  `.ok none` models
`Ok(None)` ("need more bytes"); on success the remaining (unconsumed) buffer
is returned alongside the message. -/
def FutuCodec.decodeMsg (hash : List Nat → List Nat) (src : List Nat) :
    Except CodecError (Option (FutuMessage × List Nat)) :=
  if src.length < HEADER_SIZE then .ok none
  else
    match PacketHeader.decodeBytes src with
    | .error .insufficientData => .ok none
    | .error .invalidMagic => .error (.header .invalidMagic)
    | .ok (header, rest) =>
      if header.body_len > MAX_BODY_SIZE then .error (.bodyTooLarge header.body_len)
      else if src.length < HEADER_SIZE + header.body_len then .ok none
      else
        let body := rest.take header.body_len
        if ¬ (PacketHeader.verify_body hash header body) then
          .error (.checksumMismatch header.proto_id header.serial_no)
        else .ok (some ({ proto_id := header.proto_id, serial_no := header.serial_no,
                          body := body }, rest.drop header.body_len))

/-! ## AES-ECB cipher layer (encryption.rs)

`AesEcbCipher` wraps an `Aes128` block cipher.  The AES-128 block maps
`encrypt_block` / `decrypt_block` of the `aes` crate operate in place on one
16-byte `GenericArray` block; here they are parameters `enc`, `dec` of type
`List Nat → List Nat`, constrained in theorems by what the Rust types
guarantee: they send 16-byte blocks to 16-byte blocks, and `dec` inverts
`enc`. -/

/-- `EncryptionError` in encryption.rs (the `Rsa` variant, unused by
`encrypt`/`decrypt`, is omitted). -/
inductive EncryptionError where
  | invalidCiphertext
  | invalidPadding
deriving DecidableEq, Repr

/-- `for chunk in data.chunks_exact_mut(16) { cipher_block(chunk) }`: apply a
block map to each full 16-byte chunk in order; a trailing partial chunk (which
never occurs on the call sites, whose buffers are block-aligned) is left
untouched, as `chunks_exact_mut` leaves the remainder untouched. -/
def applyBlocks (f : List Nat → List Nat) (data : List Nat) : List Nat :=
  if _h : data.length < 16 then data
  else f (data.take 16) ++ applyBlocks f (data.drop 16)
termination_by data.length
decreasing_by simp [List.length_drop]; omega

/-- `AesEcbCipher::encrypt` in encryption.rs: append PKCS#7 padding
(`padding_len = 16 - len % 16` bytes, each of value `padding_len`), then
encrypt each 16-byte block. -/
def AesEcbCipher.encrypt (enc : List Nat → List Nat) (data : List Nat) :
    List Nat :=
  let block_size := 16
  let padding_len := block_size - data.length % block_size
  applyBlocks enc (data ++ List.replicate padding_len padding_len)

/-- `AesEcbCipher::decrypt` in encryption.rs: reject empty or non-block-
aligned input, decrypt each block, then validate and strip PKCS#7 padding.
`result.last().unwrap()` is modelled as `getLast?.getD 0` (the `unwrap`
cannot panic on the Rust side since the in-place block decryption preserves
the nonzero length). -/
def AesEcbCipher.decrypt (dec : List Nat → List Nat) (data : List Nat) :
    Except EncryptionError (List Nat) :=
  if data.length = 0 ∨ ¬ (data.length % 16 = 0) then .error .invalidCiphertext
  else
    let result := applyBlocks dec data
    let padding_len := result.getLast?.getD 0
    if padding_len = 0 ∨ padding_len > 16 then .error .invalidPadding
    else if result.length < padding_len then .error .invalidPadding
    else
      let data_len := result.length - padding_len
      if ¬ ((result.drop data_len).all (fun b => b == padding_len)) then
        .error .invalidPadding
      else .ok (result.take data_len)

/-! ## Connection (client/connection.rs)

`FutuConnection` holds `serial_counter : AtomicU32` (initialized to 1) and
`cipher : Mutex<Option<AesEcbCipher>>`.  The cipher-relevant part of `recv`
(everything after a frame has been decoded) is modelled as a step function on
the cipher state; the cipher itself is the block-decryption parameter `dec`,
and the state records whether it is installed (`Some`/`None`). -/

/-- `ConnectionError` in client/connection.rs (payload strings elided). -/
inductive ConnectionError where
  | io
  | send
  | receive
  | decryption
  | disconnected
deriving DecidableEq, Repr

/-- `FutuConnection::next_serial`: `fetch_add(1, SeqCst)` on an `AtomicU32`
returns the previous value and stores the incremented value, wrapping
modulo `2^32`.  The state is the current counter value (< `2^32`); the first
component is the serial returned, the second the new counter. -/
def FutuConnection.next_serial (counter : Nat) : Nat × Nat :=
  (counter, (counter + 1) % UINT32_MOD)

/-- Counter contents after `n` calls to `next_serial`, starting from the
initial `AtomicU32::new(1)` of `FutuConnection::connect`. -/
def counterAfter : Nat → Nat
  | 0 => 1
  | n + 1 => (FutuConnection.next_serial (counterAfter n)).2

/-- The serial returned by the `(n+1)`-st call to `next_serial` on a
connection. -/
def nthSerial (n : Nat) : Nat :=
  (FutuConnection.next_serial (counterAfter n)).1

/-- The post-decode cipher handling inside `FutuConnection::recv`
(client/connection.rs, the `Some(Ok(mut msg))` arm): when a cipher is
installed and the body is non-empty, a block-aligned body is decrypted (a
decryption failure surfaces as `ConnectionError::Decryption`), while a
non-block-aligned body disables the cipher (`*cipher = None`) and is passed
through unmodified.  Returns the delivered message and the new cipher
state (`true` = cipher installed). -/
def FutuConnection.recvStep (dec : List Nat → List Nat) (msg : FutuMessage)
    (cipherActive : Bool) : Except ConnectionError (FutuMessage × Bool) :=
  if cipherActive then
    if ¬ (msg.body = []) then
      if msg.body.length % 16 = 0 then
        match AesEcbCipher.decrypt dec msg.body with
        | .ok b => .ok ({ msg with body := b }, true)
        | .error _ => .error .decryption
      else .ok (msg, false)
    else .ok (msg, true)
  else .ok (msg, false)

/-! ## Dispatcher (client/dispatcher.rs)

`Dispatcher` holds `pending : HashMap<u32, oneshot::Sender<FutuMessage>>` and
`push_handlers : HashMap<u32, Vec<mpsc::UnboundedSender<FutuMessage>>>`.
The maps are modelled as association lists with unique keys (`HashMap`
semantics); a oneshot sender is identified by a slot id, an mpsc sender by a
subscriber record carrying its `is_closed()` flag. -/

/-- One push subscriber: the sender id and whether `is_closed()` holds. -/
structure Sub where
  id : Nat
  closed : Bool
deriving DecidableEq, Repr

/-- Dispatcher state: `pending` maps serial numbers to oneshot slot ids,
`push_handlers` maps proto ids to subscriber lists. -/
structure DispatcherState where
  pending : List (Nat × Nat)
  push_handlers : List (Nat × List Sub)
deriving DecidableEq, Repr

/-- `HashMap` lookup on the association-list model (first matching key). -/
def lookupKey {α : Type} (k : Nat) : List (Nat × α) → Option α
  | [] => none
  | (k', v) :: rest => if k' = k then some v else lookupKey k rest

/-- `HashMap::remove` on the association-list model (drops the first entry
with the given key). -/
def eraseKey {α : Type} (k : Nat) : List (Nat × α) → List (Nat × α)
  | [] => []
  | (k', v) :: rest => if k' = k then rest else (k', v) :: eraseKey k rest

/-- In-place update of the value stored under a key (`get_mut` followed by a
mutation), leaving the rest of the map unchanged. -/
def setKey {α : Type} (k : Nat) (v : α) : List (Nat × α) → List (Nat × α)
  | [] => []
  | (k', v') :: rest => if k' = k then (k, v) :: rest else (k', v') :: setKey k v rest

/-- The routing outcome of one `dispatch` call: exactly one of the three
constructors happens. -/
inductive DispatchAction where
  | resolved (slot : Nat) (m : FutuMessage)
  | pushed (receivers : List Nat) (m : FutuMessage)
  | dropped
deriving DecidableEq, Repr

/-- `Dispatcher::dispatch` in client/dispatcher.rs: first try
`pending.remove(&msg.serial_no)` and send the frame to that oneshot slot and
return; otherwise look up `push_handlers` by `msg.proto_id`, prune closed
senders in place, and send a clone to each remaining sender; otherwise drop
the frame (debug log only). -/
def Dispatcher.dispatch (st : DispatcherState) (msg : FutuMessage) :
    DispatchAction × DispatcherState :=
  match lookupKey msg.serial_no st.pending with
  | some slot =>
      (.resolved slot msg, { st with pending := eraseKey msg.serial_no st.pending })
  | none =>
      match lookupKey msg.proto_id st.push_handlers with
      | some senders =>
          let live := senders.filter (fun s => !s.closed)
          (.pushed (live.map Sub.id) msg,
           { st with push_handlers := setKey msg.proto_id live st.push_handlers })
      | none => (.dropped, st)

/-! ### One-shot slot semantics (for `clear_pending`)

A `tokio::sync::oneshot` channel as seen by its receiver: still waiting,
resolved with a message, or sender dropped without a send.  `FutuClient`'s
request path awaits the receiver with `rx.await.map_err(|_|
ConnectionError::Disconnected)` (client/mod.rs), so a dropped sender is
observed as `Disconnected`. -/
inductive SlotState where
  | waiting
  | sent (m : FutuMessage)
  | dropped
deriving DecidableEq, Repr

/-- Dropping a oneshot sender: a waiting receiver will now observe an error;
an already-delivered message is unaffected. -/
def dropSender : SlotState → SlotState
  | .waiting => .dropped
  | s => s

/-- `rx.await.map_err(|_| ConnectionError::Disconnected)` in
`FutuClient::request` (client/mod.rs): `none` models an await that has not
resolved (the caller is still hanging). -/
def awaitOutcome : SlotState → Option (Except ConnectionError FutuMessage)
  | .waiting => none
  | .sent m => some (.ok m)
  | .dropped => some (.error .disconnected)

/-- Modelled from the spec: `Dispatcher::clear_pending` itself is not among
the provided sources — only its callers (`FutuClient::clear_pending`,
`FutuClient::disconnect` and the receive loop in client/mod.rs) are.  Per
the spec (§4.4), it "drops all one-shot slots": the pending table becomes
empty and every oneshot sender it contained is dropped. -/
def Dispatcher.clear_pending (st : DispatcherState) (slots : Nat → SlotState) :
    DispatcherState × (Nat → SlotState) :=
  ({ st with pending := [] },
   fun sid => if (st.pending.map Prod.snd).contains sid then dropSender (slots sid)
              else slots sid)

/-! ## Keepalive driver (client/keepalive.rs) -/

/-- `MAX_FAILURES` in `start_keepalive`. -/
def MAX_FAILURES : Nat := 3

/-- The keepalive loop of `start_keepalive`, abstracted over the sequence of
heartbeat-send outcomes (`true` = the `send_keepalive` call succeeded).
State is `consecutive_failures`.  Returns whether the loop emitted the
one-shot failure signal (and exited) before the outcome sequence ran out,
together with the final failure count: on a success the count resets to 0;
on a failure it increments, and once it reaches `MAX_FAILURES` the signal is
sent on `failure_tx` and the loop breaks. -/
def keepaliveRun (failures : Nat) : List Bool → Bool × Nat
  | [] => (false, failures)
  | ok :: rest =>
      if ok then keepaliveRun 0 rest
      else
        if failures + 1 ≥ MAX_FAILURES then (true, failures + 1)
        else keepaliveRun (failures + 1) rest

/-- Spec-side predicate, written from the claim: the outcome sequence
contains (at least) three consecutive failed sends. -/
def hasThreeConsecutiveFailures : List Bool → Bool
  | false :: false :: false :: _ => true
  | _ :: rest => hasThreeConsecutiveFailures rest
  | [] => false

/-- A concrete stand-in for the SHA-1 digest parameter, used only by
witnesses: any function returning 20 bytes satisfies the embedding's
constraint. -/
def trivialHash : List Nat → List Nat := fun _ => List.replicate 20 0

/-! ## Theorems -/

theorem toLE32_length (v : Nat) : (toLE32 v).length = 4 := rfl

theorem fromLE32_toLE32 (v : Nat) (h : v < UINT32_MOD) : fromLE32 (toLE32 v) = v := by
  simp only [fromLE32, toLE32, UINT32_MOD] at *
  simp only [List.getD]
  simp
  omega

theorem PacketHeader.encodeBytes_length (h : PacketHeader)
    (hsha : h.body_sha1.length = 20) : h.encodeBytes.length = HEADER_SIZE := by
  simp [PacketHeader.encodeBytes, HEADER_MAGIC, toLE32, hsha, HEADER_SIZE]

/-- Decoding an encoded header (followed by any tail) recovers the header
verbatim and leaves exactly the tail, provided the u32 fields are in range
and the digest has its 20 guaranteed bytes. -/
theorem PacketHeader.decodeBytes_encodeBytes (h : PacketHeader) (tail : List Nat)
    (hpid : h.proto_id < UINT32_MOD) (hsn : h.serial_no < UINT32_MOD)
    (hbl : h.body_len < UINT32_MOD) (hsha : h.body_sha1.length = 20) :
    PacketHeader.decodeBytes (h.encodeBytes ++ tail) = .ok (h, tail) := by
  obtain ⟨pid, fmt, ver, sn, bl, sha⟩ := h
  have htake : ∀ z : List Nat, (sha ++ z).take 20 = sha := fun z => List.take_left' hsha
  have hdrop : ∀ z : List Nat, (sha ++ (List.replicate 8 0 ++ z)).drop 28 = z := by
    intro z
    rw [← List.append_assoc]
    exact List.drop_left' (by simp [hsha])
  simp only [PacketHeader.encodeBytes, HEADER_MAGIC, toLE32, List.append_assoc,
    List.cons_append, List.nil_append] at *
  simp only [PacketHeader.decodeBytes, HEADER_SIZE, List.length_cons, List.length_append,
    List.length_replicate, hsha]
  rw [if_neg (by omega)]
  rw [if_neg (by simp [HEADER_MAGIC])]
  simp only [List.drop_succ_cons, List.drop_zero, List.take_succ_cons, List.take_zero,
    List.getD_cons_succ, List.getD_cons_zero, htake, hdrop]
  simp only [fromLE32, List.getD_cons_succ, List.getD_cons_zero, List.getD_nil]
  simp only [UINT32_MOD] at hpid hsn hbl
  simp only [Except.ok.injEq, Prod.mk.injEq, PacketHeader.mk.injEq, and_true, true_and]
  omega

/-- Claim C4: for every frame (u32-ranged `proto_id` and `serial_no`, body of
at most `MAX_BODY_SIZE` bytes), decoding the byte buffer produced by encoding
the frame yields exactly the frame back and consumes the entire encoded frame
from the buffer (any trailing bytes are left in place). -/
theorem FutuCodec.decodeMsg_encodeMsg (hash : List Nat → List Nat)
    (hlen : ∀ b, (hash b).length = 20)
    (f : FutuMessage) (rest : List Nat)
    (hpid : f.proto_id < UINT32_MOD) (hsn : f.serial_no < UINT32_MOD)
    (hbody : f.body.length ≤ MAX_BODY_SIZE) :
    FutuCodec.decodeMsg hash (FutuCodec.encodeMsg hash f ++ rest) =
      .ok (some (f, rest)) := by
  obtain ⟨pid, sn, body⟩ := f
  simp only at hpid hsn hbody
  have hbm : body.length < UINT32_MOD := by
    simp only [MAX_BODY_SIZE, UINT32_MOD] at *
    omega
  set hdr := PacketHeader.new hash pid sn body with hhdr
  have hsha : hdr.body_sha1.length = 20 := hlen body
  have hblen : hdr.body_len = body.length := Nat.mod_eq_of_lt hbm
  have hel : hdr.encodeBytes.length = 44 := by
    simpa [HEADER_SIZE] using PacketHeader.encodeBytes_length hdr hsha
  simp only [FutuCodec.encodeMsg, ← hhdr, List.append_assoc]
  simp only [FutuCodec.decodeMsg]
  rw [if_neg (by simp only [List.length_append, hel, HEADER_SIZE]; omega)]
  rw [PacketHeader.decodeBytes_encodeBytes hdr (body ++ rest) hpid hsn
    (by rw [hblen]; exact hbm) hsha]
  dsimp only
  rw [if_neg (by rw [hblen]; omega)]
  rw [if_neg (by simp only [List.length_append, hel, hblen, HEADER_SIZE]; omega)]
  rw [hblen, List.take_left, List.drop_left]
  rw [if_neg (by simp [PacketHeader.verify_body, hhdr, PacketHeader.new])]
  rfl

theorem applyBlocks_length (f : List Nat → List Nat)
    (hf : ∀ b, b.length = 16 → (f b).length = 16) (data : List Nat) :
    (applyBlocks f data).length = data.length := by
  rw [applyBlocks]
  by_cases h : data.length < 16
  · rw [dif_pos h]
  · rw [dif_neg h]
    have ih := applyBlocks_length f hf (data.drop 16)
    have ht : (data.take 16).length = 16 := by simp [List.length_take]; omega
    simp [List.length_append, ih, hf _ ht]
    omega
termination_by data.length
decreasing_by simp [List.length_drop]; omega

/-- Blockwise decryption inverts blockwise encryption on block-aligned
buffers. -/
theorem applyBlocks_inverse (enc dec : List Nat → List Nat)
    (hel : ∀ b, b.length = 16 → (enc b).length = 16)
    (hinv : ∀ b, b.length = 16 → dec (enc b) = b)
    (data : List Nat) (hm : data.length % 16 = 0) :
    applyBlocks dec (applyBlocks enc data) = data := by
  by_cases h : data.length < 16
  · have e1 : applyBlocks enc data = data := by rw [applyBlocks, dif_pos h]
    rw [e1, applyBlocks, dif_pos h]
  · have ht : (data.take 16).length = 16 := by simp [List.length_take]; omega
    have he16 : (enc (data.take 16)).length = 16 := hel _ ht
    have e1 : applyBlocks enc data =
        enc (data.take 16) ++ applyBlocks enc (data.drop 16) := by
      rw [applyBlocks, dif_neg h]
    rw [e1]
    rw [applyBlocks, dif_neg (by
      simp [List.length_append, he16,
        applyBlocks_length enc hel (data.drop 16)])]
    rw [List.take_left' he16, List.drop_left' he16]
    rw [hinv _ ht]
    rw [applyBlocks_inverse enc dec hel hinv (data.drop 16)
      (by simp [List.length_drop]; omega)]
    exact List.take_append_drop 16 data
termination_by data.length
decreasing_by simp [List.length_drop]; omega

theorem replicate_split_last (a k : Nat) (hk : 1 ≤ k) :
    List.replicate k a = List.replicate (k - 1) a ++ [a] := by
  cases k with
  | zero => exact absurd hk (by omega)
  | succ n => simp [List.replicate_succ']

theorem AesEcbCipher.encrypt_length (enc : List Nat → List Nat)
    (hel : ∀ b, b.length = 16 → (enc b).length = 16) (data : List Nat) :
    (AesEcbCipher.encrypt enc data).length
      = data.length + (16 - data.length % 16) := by
  simp [AesEcbCipher.encrypt, applyBlocks_length enc hel]

/-- Decrypting an encrypted body recovers it exactly whenever the block maps
are inverse length-preserving 16-byte maps (as AES-128 is for every key). -/
theorem AesEcbCipher.decrypt_encrypt (enc dec : List Nat → List Nat)
    (hel : ∀ b, b.length = 16 → (enc b).length = 16)
    (hinv : ∀ b, b.length = 16 → dec (enc b) = b)
    (data : List Nat) :
    AesEcbCipher.decrypt dec (AesEcbCipher.encrypt enc data) = .ok data := by
  have hp : 1 ≤ 16 - data.length % 16 ∧ 16 - data.length % 16 ≤ 16 := by omega
  set p := 16 - data.length % 16 with hpdef
  have hpadlen : (data ++ List.replicate p p).length = data.length + p := by simp
  have hmul : (data.length + p) % 16 = 0 := by omega
  have hencdef : AesEcbCipher.encrypt enc data
      = applyBlocks enc (data ++ List.replicate p p) := rfl
  have hlen : (AesEcbCipher.encrypt enc data).length = data.length + p := by
    rw [hencdef, applyBlocks_length enc hel, hpadlen]
  rw [AesEcbCipher.decrypt]
  rw [if_neg (by rw [hlen]; omega)]
  have hres : applyBlocks dec (AesEcbCipher.encrypt enc data)
      = data ++ List.replicate p p := by
    rw [hencdef]
    exact applyBlocks_inverse enc dec hel hinv _ (by rw [hpadlen]; exact hmul)
  simp only [hres]
  have hlast : (data ++ List.replicate p p).getLast? = some p := by
    rw [replicate_split_last p p hp.1, ← List.append_assoc]
    exact List.getLast?_concat _
  rw [hlast]
  simp only [Option.getD_some]
  rw [if_neg (by omega)]
  rw [if_neg (by rw [hpadlen]; omega)]
  rw [hpadlen, Nat.add_sub_cancel]
  rw [List.drop_left, List.take_left]
  rw [if_neg (by simp [List.all_eq_true, List.mem_replicate])]

/-- Claim C6: `decrypt` fails with `InvalidCiphertext` exactly when the input
is empty or not block-aligned; otherwise, writing `r` for the block-wise
decryption of the input and `n` for its last byte, it fails with
`InvalidPadding` exactly when PKCS#7 validation fails (`n` outside `1..=16`,
or some trailing `n` bytes differ from `n`), and succeeds returning `r` with
the `n` padding bytes removed otherwise. -/
theorem AesEcbCipher.decrypt_error_characterization (dec : List Nat → List Nat)
    (hdl : ∀ b, b.length = 16 → (dec b).length = 16) (d : List Nat) :
    (AesEcbCipher.decrypt dec d = .error .invalidCiphertext ↔
       d.length = 0 ∨ ¬ (d.length % 16 = 0))
    ∧ (d.length ≠ 0 → d.length % 16 = 0 →
        ((AesEcbCipher.decrypt dec d = .error .invalidPadding ↔
            ¬ (1 ≤ (applyBlocks dec d).getLast?.getD 0 ∧
               (applyBlocks dec d).getLast?.getD 0 ≤ 16 ∧
               ((applyBlocks dec d).drop
                   ((applyBlocks dec d).length - (applyBlocks dec d).getLast?.getD 0)).all
                 (fun b => b == (applyBlocks dec d).getLast?.getD 0) = true))
         ∧ ((1 ≤ (applyBlocks dec d).getLast?.getD 0 ∧
             (applyBlocks dec d).getLast?.getD 0 ≤ 16 ∧
             ((applyBlocks dec d).drop
                 ((applyBlocks dec d).length - (applyBlocks dec d).getLast?.getD 0)).all
               (fun b => b == (applyBlocks dec d).getLast?.getD 0) = true) →
            AesEcbCipher.decrypt dec d =
              .ok ((applyBlocks dec d).take
                ((applyBlocks dec d).length - (applyBlocks dec d).getLast?.getD 0))))) := by
  set r := applyBlocks dec d with hrdef
  set n := r.getLast?.getD 0 with hndef
  by_cases hc : d.length = 0 ∨ ¬ (d.length % 16 = 0)
  · refine ⟨?_, fun h0 hm => absurd hc (by simp [h0, hm])⟩
    rw [AesEcbCipher.decrypt, if_pos hc]
    exact iff_of_true rfl hc
  · have hr : r.length = d.length := applyBlocks_length dec hdl d
    have hd16 : 16 ≤ d.length := by
      push_neg at hc
      omega
    have hdec : AesEcbCipher.decrypt dec d =
        (if n = 0 ∨ n > 16 then .error .invalidPadding
         else if r.length < n then .error .invalidPadding
         else if ¬ ((r.drop (r.length - n)).all (fun b => b == n)) then
           .error .invalidPadding
         else .ok (r.take (r.length - n))) := by
      rw [AesEcbCipher.decrypt, if_neg hc]
    by_cases h1 : n = 0 ∨ n > 16
    · rw [hdec, if_pos h1]
      refine ⟨iff_of_false (by simp) hc, fun _ _ => ?_⟩
      refine ⟨iff_of_true rfl (fun hgood => ?_), fun hgood => ?_⟩
      · rcases hgood with ⟨ha, hb, _⟩
        omega
      · rcases hgood with ⟨ha, hb, _⟩
        exact absurd h1 (by omega)
    · rw [hdec, if_neg h1, if_neg (by omega)]
      by_cases h2 : (r.drop (r.length - n)).all (fun b => b == n) = true
      · rw [if_neg (by simp [h2])]
        refine ⟨iff_of_false (by simp) hc, fun _ _ => ?_⟩
        refine ⟨iff_of_false (by simp) (not_not_intro ⟨by omega, by omega, h2⟩),
          fun _ => rfl⟩
      · rw [if_pos (by simp [h2])]
        refine ⟨iff_of_false (by simp) hc, fun _ _ => ?_⟩
        exact ⟨iff_of_true rfl (fun hgood => h2 hgood.2.2),
          fun hgood => absurd hgood.2.2 h2⟩

theorem counterAfter_eq (n : Nat) : counterAfter n = (1 + n) % UINT32_MOD := by
  induction n with
  | zero => simp [counterAfter, UINT32_MOD]
  | succ m ih =>
      simp only [counterAfter, FutuConnection.next_serial, ih, UINT32_MOD] at *
      omega

theorem nthSerial_eq (n : Nat) : nthSerial n = (1 + n) % UINT32_MOD := by
  simp [nthSerial, FutuConnection.next_serial, counterAfter_eq]

theorem lookupKey_eq_none {α : Type} (k : Nat) (l : List (Nat × α))
    (h : k ∉ l.map Prod.fst) : lookupKey k l = none := by
  induction l with
  | nil => rfl
  | cons p rest ih =>
      obtain ⟨k', v⟩ := p
      simp only [List.map_cons, List.mem_cons, not_or] at h
      rw [lookupKey, if_neg (by omega)]
      exact ih h.2

theorem lookupKey_eraseKey_self {α : Type} (k : Nat) (l : List (Nat × α))
    (hnd : (l.map Prod.fst).Nodup) : lookupKey k (eraseKey k l) = none := by
  induction l with
  | nil => rfl
  | cons p rest ih =>
      obtain ⟨k', v⟩ := p
      simp only [List.map_cons, List.nodup_cons] at hnd
      by_cases hk : k' = k
      · rw [eraseKey, if_pos hk]
        exact lookupKey_eq_none k rest (hk ▸ hnd.1)
      · rw [eraseKey, if_neg hk, lookupKey, if_neg hk]
        exact ih hnd.2

theorem lookupKey_eraseKey_ne {α : Type} (k q : Nat) (hq : q ≠ k)
    (l : List (Nat × α)) : lookupKey q (eraseKey k l) = lookupKey q l := by
  induction l with
  | nil => rfl
  | cons p rest ih =>
      obtain ⟨k', v⟩ := p
      by_cases hk : k' = k
      · rw [eraseKey, if_pos hk, lookupKey, if_neg (by omega)]
      · rw [eraseKey, if_neg hk, lookupKey, lookupKey]
        by_cases hq' : k' = q
        · rw [if_pos hq', if_pos hq']
        · rw [if_neg hq', if_neg hq']
          exact ih

theorem keepaliveRun_eq_spec : ∀ xs : List Bool,
    (keepaliveRun 0 xs).1 = hasThreeConsecutiveFailures xs
  | [] => rfl
  | [false] => by
      simp [keepaliveRun, hasThreeConsecutiveFailures, MAX_FAILURES]
  | [false, false] => by
      simp [keepaliveRun, hasThreeConsecutiveFailures, MAX_FAILURES]
  | true :: rest => by
      simpa [keepaliveRun, hasThreeConsecutiveFailures] using keepaliveRun_eq_spec rest
  | false :: true :: rest => by
      simpa [keepaliveRun, hasThreeConsecutiveFailures, MAX_FAILURES] using
        keepaliveRun_eq_spec rest
  | false :: false :: true :: rest => by
      simpa [keepaliveRun, hasThreeConsecutiveFailures, MAX_FAILURES] using
        keepaliveRun_eq_spec rest
  | false :: false :: false :: rest => by
      simp [keepaliveRun, hasThreeConsecutiveFailures, MAX_FAILURES]

theorem trivialHash_length : ∀ b, (trivialHash b).length = 20 := fun _ => by
  simp [trivialHash]

/-- Claim C1: `clear_pending()` drops every one-shot pending slot in the
Dispatcher's pending table (the table becomes empty), so that every caller
awaiting one of those slots observes the `Disconnected` error rather than
hanging; this holds for every state of the pending table. -/
theorem Dispatcher.clear_pending_resolves_awaiters (st : DispatcherState)
    (slots : Nat → SlotState) (serial sid : Nat)
    (hmem : (serial, sid) ∈ st.pending) (hw : slots sid = .waiting) :
    (Dispatcher.clear_pending st slots).1.pending = [] ∧
    awaitOutcome ((Dispatcher.clear_pending st slots).2 sid) =
      some (.error .disconnected) := by
  refine ⟨rfl, ?_⟩
  have hc : (st.pending.map Prod.snd).contains sid = true := by
    have hm : sid ∈ st.pending.map Prod.snd := List.mem_map_of_mem Prod.snd hmem
    simpa using hm
  have h2 : (Dispatcher.clear_pending st slots).2 sid = dropSender (slots sid) := by
    show (if (st.pending.map Prod.snd).contains sid then dropSender (slots sid)
          else slots sid) = dropSender (slots sid)
    rw [if_pos hc]
  rw [h2, hw]
  rfl

theorem Dispatcher.clear_pending_resolves_awaiters_witness :
    (Dispatcher.clear_pending ⟨[(5, 0)], []⟩ (fun _ => SlotState.waiting)).1.pending = [] ∧
    awaitOutcome ((Dispatcher.clear_pending ⟨[(5, 0)], []⟩
        (fun _ => SlotState.waiting)).2 0) =
      some (.error .disconnected) :=
  Dispatcher.clear_pending_resolves_awaiters ⟨[(5, 0)], []⟩ (fun _ => SlotState.waiting)
    5 0 (by decide) rfl

/-- Claim C2: for every dispatched frame and dispatcher state (with the
`HashMap`-guaranteed unique pending keys), at most one routing action
occurs.  If the frame's serial number has a pending slot, exactly that slot
receives the frame, it alone is removed from the pending table, and the
push table is untouched (no subscriber receives anything, even if the
frame's proto id has subscribers).  Otherwise every live push subscriber
registered for the frame's proto id receives it and the pending table is
untouched; if neither matches, the frame is dropped and the state is
unchanged. -/
theorem Dispatcher.dispatch_routing_exclusive (st : DispatcherState)
    (msg : FutuMessage) (hnd : (st.pending.map Prod.fst).Nodup) :
    (∀ slot, lookupKey msg.serial_no st.pending = some slot →
        (Dispatcher.dispatch st msg).1 = .resolved slot msg ∧
        lookupKey msg.serial_no (Dispatcher.dispatch st msg).2.pending = none ∧
        (∀ k, k ≠ msg.serial_no →
            lookupKey k (Dispatcher.dispatch st msg).2.pending =
              lookupKey k st.pending) ∧
        (Dispatcher.dispatch st msg).2.push_handlers = st.push_handlers)
    ∧ (lookupKey msg.serial_no st.pending = none →
        (∀ senders, lookupKey msg.proto_id st.push_handlers = some senders →
            (Dispatcher.dispatch st msg).1 =
              .pushed ((senders.filter (fun s => !s.closed)).map Sub.id) msg ∧
            (Dispatcher.dispatch st msg).2.pending = st.pending)
        ∧ (lookupKey msg.proto_id st.push_handlers = none →
            Dispatcher.dispatch st msg = (.dropped, st))) := by
  constructor
  · intro slot hslot
    have hd : Dispatcher.dispatch st msg =
        (.resolved slot msg, { st with pending := eraseKey msg.serial_no st.pending }) := by
      rw [Dispatcher.dispatch, hslot]
    rw [hd]
    exact ⟨rfl, lookupKey_eraseKey_self _ _ hnd,
      fun k hk => lookupKey_eraseKey_ne _ k hk _, rfl⟩
  · intro hnone
    constructor
    · intro senders hs
      have hd : Dispatcher.dispatch st msg =
          (.pushed ((senders.filter (fun s => !s.closed)).map Sub.id) msg,
           (⟨st.pending,
             setKey msg.proto_id (senders.filter (fun s => !s.closed))
               st.push_handlers⟩ : DispatcherState)) := by
        rw [Dispatcher.dispatch, hnone, hs]
      rw [hd]
      exact ⟨rfl, rfl⟩
    · intro hs
      rw [Dispatcher.dispatch, hnone, hs]

theorem Dispatcher.dispatch_routing_exclusive_witness :
    (Dispatcher.dispatch ⟨[(50, 7)], [(3001, [⟨1, false⟩])]⟩ ⟨3001, 50, [1]⟩).1 =
      .resolved 7 ⟨3001, 50, [1]⟩ ∧
    lookupKey 50 (Dispatcher.dispatch ⟨[(50, 7)], [(3001, [⟨1, false⟩])]⟩
        ⟨3001, 50, [1]⟩).2.pending = none ∧
    lookupKey 51 (Dispatcher.dispatch ⟨[(50, 7)], [(3001, [⟨1, false⟩])]⟩
        ⟨3001, 50, [1]⟩).2.pending = lookupKey 51 [(50, 7)] ∧
    (Dispatcher.dispatch ⟨[(50, 7)], [(3001, [⟨1, false⟩])]⟩
        ⟨3001, 50, [1]⟩).2.push_handlers = [(3001, [⟨1, false⟩])] := by
  have h := (Dispatcher.dispatch_routing_exclusive ⟨[(50, 7)], [(3001, [⟨1, false⟩])]⟩
    ⟨3001, 50, [1]⟩ (by decide)).1 7 (by decide)
  exact ⟨h.1, h.2.1, h.2.2.1 51 (by decide), h.2.2.2⟩

/-- Claim C3: while the cipher is active, a received frame with a non-empty
body whose length is not a multiple of 16 is returned unmodified and the
cipher state transitions to `None` (and every later `recv` from the `None`
state keeps it `None` and passes bodies through); a non-empty block-aligned
body is decrypted before being returned. -/
theorem FutuConnection.recv_cipher_downgrade (dec : List Nat → List Nat)
    (msg : FutuMessage) (hne : msg.body ≠ []) :
    (¬ (msg.body.length % 16 = 0) →
        FutuConnection.recvStep dec msg true = .ok (msg, false) ∧
        (∀ (dec2 : List Nat → List Nat) (msg2 : FutuMessage),
            FutuConnection.recvStep dec2 msg2 false = .ok (msg2, false)))
    ∧ (msg.body.length % 16 = 0 →
        ∀ b, AesEcbCipher.decrypt dec msg.body = .ok b →
          FutuConnection.recvStep dec msg true = .ok ({ msg with body := b }, true)) := by
  constructor
  · intro hm
    constructor
    · rw [FutuConnection.recvStep, if_pos rfl, if_pos hne, if_neg hm]
    · intro dec2 msg2
      rw [FutuConnection.recvStep, if_neg (by simp)]
  · intro hm b hb
    rw [FutuConnection.recvStep, if_pos rfl, if_pos hne, if_pos hm, hb]

theorem FutuConnection.recv_cipher_downgrade_witness :
    FutuConnection.recvStep (fun b => b) ⟨1001, 5, [1, 2, 3]⟩ true =
      .ok (⟨1001, 5, [1, 2, 3]⟩, false) :=
  ((FutuConnection.recv_cipher_downgrade (fun b => b) ⟨1001, 5, [1, 2, 3]⟩
    (by decide)).1 (by decide)).1

/-- Claim C10: while the cipher is active, a received frame with an empty
body is returned with the empty body unchanged and the cipher stays active:
neither decryption nor the plaintext downgrade applies to empty bodies. -/
theorem FutuConnection.recv_empty_body_active (dec : List Nat → List Nat)
    (msg : FutuMessage) (he : msg.body = []) :
    FutuConnection.recvStep dec msg true = .ok (msg, true) := by
  rw [FutuConnection.recvStep, if_pos rfl, if_neg (not_not_intro he)]

theorem FutuConnection.recv_empty_body_active_witness :
    FutuConnection.recvStep (fun b => b) ⟨1004, 9, []⟩ true =
      .ok (⟨1004, 9, []⟩, true) :=
  FutuConnection.recv_empty_body_active (fun b => b) ⟨1004, 9, []⟩ rfl

/-- Claim C5: for every body and every pair of inverse, length-preserving
16-byte block maps (as AES-128 encryption/decryption are for every 16-byte
key), decrypting an encrypted body succeeds and returns the body; the
ciphertext length is a multiple of 16 and at least one byte longer than the
body; and a block-aligned body gains exactly one full 16-byte pad block. -/
theorem AesEcbCipher.encrypt_decrypt_roundtrip_length
    (enc dec : List Nat → List Nat)
    (hel : ∀ b, b.length = 16 → (enc b).length = 16)
    (hinv : ∀ b, b.length = 16 → dec (enc b) = b)
    (data : List Nat) :
    AesEcbCipher.decrypt dec (AesEcbCipher.encrypt enc data) = .ok data ∧
    (AesEcbCipher.encrypt enc data).length % 16 = 0 ∧
    data.length + 1 ≤ (AesEcbCipher.encrypt enc data).length ∧
    (data.length % 16 = 0 →
      (AesEcbCipher.encrypt enc data).length = data.length + 16) := by
  refine ⟨AesEcbCipher.decrypt_encrypt enc dec hel hinv data, ?_, ?_, ?_⟩ <;>
    rw [AesEcbCipher.encrypt_length enc hel data]
  · omega
  · omega
  · omega

theorem AesEcbCipher.encrypt_decrypt_roundtrip_length_witness :
    AesEcbCipher.decrypt (fun b => b) (AesEcbCipher.encrypt (fun b => b) [7, 7]) =
      .ok [7, 7] ∧
    (AesEcbCipher.encrypt (fun b => b) [7, 7]).length % 16 = 0 ∧
    [7, 7].length + 1 ≤ (AesEcbCipher.encrypt (fun b => b) [7, 7]).length ∧
    ([7, 7].length % 16 = 0 →
      (AesEcbCipher.encrypt (fun b => b) [7, 7]).length = [7, 7].length + 16) :=
  AesEcbCipher.encrypt_decrypt_roundtrip_length (fun b => b) (fun b => b)
    (fun _ h => h) (fun _ _ => rfl) [7, 7]

theorem AesEcbCipher.decrypt_error_characterization_witness :
    AesEcbCipher.decrypt (fun b => b) [1] = .error .invalidCiphertext :=
  (AesEcbCipher.decrypt_error_characterization (fun b => b) (fun _ hb => hb)
    [1]).1.mpr (by decide)

theorem FutuCodec.decodeMsg_encodeMsg_witness :
    FutuCodec.decodeMsg trivialHash
        (FutuCodec.encodeMsg trivialHash ⟨1001, 42, [1, 2, 3]⟩ ++ [9, 9]) =
      .ok (some (⟨1001, 42, [1, 2, 3]⟩, [9, 9])) :=
  FutuCodec.decodeMsg_encodeMsg trivialHash trivialHash_length
    ⟨1001, 42, [1, 2, 3]⟩ [9, 9] (by decide) (by decide) (by decide)

/-- Claim C7 (amended): as long as fewer than `2^32 - 1` serial numbers have
been drawn, every serial returned by `next_serial` is at least 1 and
strictly greater than every previously returned serial.  (As stated for
*every* sequence of calls the claim fails: the `fetch_add` wraps, see
`nthSerial_wraparound_counterexample`.) -/
theorem nthSerial_strict_mono_below_wrap (i j : Nat) (hij : i < j)
    (hj : j < UINT32_MOD - 1) :
    1 ≤ nthSerial i ∧ nthSerial i < nthSerial j := by
  rw [nthSerial_eq, nthSerial_eq]
  simp only [UINT32_MOD] at *
  omega

theorem nthSerial_strict_mono_below_wrap_witness :
    1 ≤ nthSerial 0 ∧ nthSerial 0 < nthSerial 1 :=
  nthSerial_strict_mono_below_wrap 0 1 (by decide) (by decide)

/-- Counterexample to Claim C7 as stated: the `AtomicU32` counter wraps, so
the `2^32`-nd call of `next_serial` (index `2^32 - 1`, counting from 0)
returns 0, which is neither `≥ 1` nor greater than the first serial. -/
theorem nthSerial_wraparound_counterexample :
    nthSerial 4294967295 = 0 ∧ nthSerial 0 = 1 ∧ ¬ (1 ≤ nthSerial 4294967295) := by
  have h1 := nthSerial_eq 4294967295
  have h2 := nthSerial_eq 0
  simp only [UINT32_MOD] at h1 h2
  norm_num at h1 h2
  exact ⟨h1, h2, by omega⟩

/-- Claim C8 (amended): whenever the input buffer holds at least the 44
header bytes and its first two bytes are not the magic `"FT"`, the frame
decoder fails with `InvalidMagic`, regardless of the rest of the buffer.
(As stated — for *every* buffer whose first two bytes are present — the
claim fails: with fewer than 44 buffered bytes the decoder asks for more
data instead, see `decodeMsg_nonmagic_needmore_counterexample`.) -/
theorem FutuCodec.decodeMsg_invalidMagic (hash : List Nat → List Nat)
    (src : List Nat) (hlen : HEADER_SIZE ≤ src.length)
    (hmagic : src.take 2 ≠ HEADER_MAGIC) :
    FutuCodec.decodeMsg hash src = .error (.header .invalidMagic) := by
  rw [FutuCodec.decodeMsg, if_neg (by omega)]
  rw [PacketHeader.decodeBytes, if_neg (by omega), if_pos hmagic]

theorem FutuCodec.decodeMsg_invalidMagic_witness :
    FutuCodec.decodeMsg trivialHash (88 :: 88 :: List.replicate 42 0) =
      .error (.header .invalidMagic) :=
  FutuCodec.decodeMsg_invalidMagic trivialHash (88 :: 88 :: List.replicate 42 0)
    (by decide) (by decide)

/-- Counterexample to Claim C8 as stated: the buffer `[88, 88]` (`"XX"`) has
its first two bytes present and different from `"FT"`, yet the codec
decoder returns "need more bytes" (`Ok(None)`) — the header decoder checks
the buffered length *before* the magic and reports `InsufficientData`, which
the codec maps to `Ok(None)`, not `InvalidMagic`. -/
theorem decodeMsg_nonmagic_needmore_counterexample :
    FutuCodec.decodeMsg trivialHash [88, 88] = .ok none ∧
    PacketHeader.decodeBytes [88, 88] = .error .insufficientData ∧
    [88, 88].take 2 ≠ HEADER_MAGIC := ⟨rfl, rfl, by decide⟩

/-- Claim C9: the keepalive driver counts consecutive heartbeat-send
failures, resetting on success; for every sequence of send outcomes it
emits its one-shot "keepalive dead" signal and exits exactly when the
sequence contains 3 consecutive failures, and never otherwise. -/
theorem keepalive_signal_iff_three_consecutive_failures (xs : List Bool) :
    (keepaliveRun 0 xs).1 = hasThreeConsecutiveFailures xs :=
  keepaliveRun_eq_spec xs

end NautilusFutu
